import Mathlib

set_option maxRecDepth 8192

/-!
Verification of the har-extractor program (src/main.go) against its
natural-language specification.  The Go source is shallowly embedded:
pure helpers become Lean functions, the streaming JSON decoder becomes a
function over a list of JSON tokens (mirroring Go's json.Decoder.Token,
which elides commas and colons and returns field names and string values
alike as plain string tokens), and filesystem effects become explicit
state passing over a small filesystem model.
-/

/-! ## Data model (struct declarations of src/main.go, lines 40-61) -/

structure Content where
  size : Int
  mimeType : String
  text : String
  compression : Int
  encoding : String
deriving DecidableEq

structure Request where
  method : String
  url : String
deriving DecidableEq

structure Response where
  status : Int
  content : Content
deriving DecidableEq

structure Entry where
  request : Request
  response : Response
deriving DecidableEq

/-- Zero value of Content, as Go's json decoding leaves absent fields. -/
def zeroContent : Content := ⟨0, "", "", 0, ""⟩

/-- Zero value of Request. -/
def zeroRequest : Request := ⟨"", ""⟩

/-- Zero value of Response. -/
def zeroResponse : Response := ⟨0, zeroContent⟩

/-- Zero value of Entry. -/
def zeroEntry : Entry := ⟨zeroRequest, zeroResponse⟩

/-! ## String helpers (list-of-char based, so that everything reduces) -/

/-- safeFileName (src/main.go lines 63-70): strings.Map replacing every
forward slash and backslash rune with a hyphen. -/
def safeFileName (s : String) : String :=
  String.mk (s.data.map (fun r => if r = '/' ∨ r = '\\' then '-' else r))

/-- Split a character list at every occurrence of a separator character
(model of the splitting used by Go's path cleaning). -/
def splitOnChar (sep : Char) : List Char → List (List Char)
  | [] => [[]]
  | c :: rest =>
    let r := splitOnChar sep rest
    if c = sep then [] :: r
    else
      match r with
      | h :: t => (c :: h) :: t
      | [] => [[c]]

/-- Interleave a slash between path components. -/
def joinSlash : List (List Char) → List Char
  | [] => []
  | [p] => p
  | p :: rest => p ++ '/' :: joinSlash rest

/-- Model of Go's filepath.Clean on a Unix separator: collapse duplicate
slashes, drop "." elements, resolve ".." against preceding elements
(keeping leading ".." for relative paths, dropping ".." at the root),
returning "." for an empty result. -/
def pathClean (path : String) : String :=
  let rooted : Bool := match path.data with | '/' :: _ => true | _ => false
  let parts := (splitOnChar '/' path.data).filter
    (fun p => if p = [] ∨ p = ['.'] then false else true)
  let stack := parts.foldl (fun acc p =>
    if p = ['.', '.'] then
      match acc with
      | [] => if rooted then [] else [['.', '.']]
      | top :: rest => if top = ['.', '.'] then p :: acc else rest
    else p :: acc) []
  let out := joinSlash stack.reverse
  if rooted then String.mk ('/' :: out)
  else if out = [] then "."
  else String.mk out

/-- Model of Go's filepath.Join: drop leading empty elements, join the
remainder with slashes and Clean the result; all-empty input gives "". -/
def filepathJoin (elems : List String) : String :=
  match elems.dropWhile (fun e => e == "") with
  | [] => ""
  | rest => pathClean (String.mk (joinSlash (rest.map String.data)))

/-- Model of Go's filepath.Dir: everything up to and including the final
slash, Cleaned ("." when there is no slash). -/
def filepathDir (path : String) : String :=
  pathClean (String.mk
    ((path.data.reverse.dropWhile (fun c => if c = '/' then false else true)).reverse))

/-- Model of Go's filepath.Base: strip trailing slashes and take the last
element; "." for the empty path, "/" when the path is all slashes.  Used
only to state the spec's "basename portion" formula for comparison. -/
def pathBase (path : String) : String :=
  if path = "" then "."
  else
    let trimmed := path.data.reverse.dropWhile (fun c => if c = '/' then true else false)
    let b := (trimmed.takeWhile (fun c => if c = '/' then false else true)).reverse
    if b = [] then "/" else String.mk b

/-! ## URL model (Go net/url.Parse, restricted to what the program uses) -/

structure URL where
  scheme : String
  host : String
  path : String
  rawQuery : String
  fragment : String
deriving DecidableEq

/-- Error kinds the embedded program can report (section 7 of the spec). -/
inductive ProcErr where
  | malformedInput
  | invalidURL
  | encodingError
deriving DecidableEq

/-- Split a character list at the first occurrence of a separator; the
separator itself is dropped and an absent separator gives an empty tail. -/
def splitOnceChar (sep : Char) : List Char → List Char × List Char
  | [] => ([], [])
  | c :: rest =>
    if c = sep then ([], rest)
    else
      let r := splitOnceChar sep rest
      (c :: r.1, r.2)

/-- Find the first "://" in a character list, returning the part before
it and the part after it. -/
def splitSchemeAux : List Char → Option (List Char × List Char)
  | [] => none
  | ':' :: '/' :: '/' :: rest => some ([], rest)
  | c :: rest =>
    match splitSchemeAux rest with
    | some r => some (c :: r.1, r.2)
    | none => none

/-- Model of Go's net/url.Parse restricted to the behavior the extractor
relies on: reject URLs containing ASCII control characters, then split
off the fragment at the first '#', the raw query at the first '?', the
scheme at the first "://", and the host as the part before the first '/'
of the remainder; the path is the rest (so the host and path components
never contain the query string).  Percent decoding and the other stdlib
niceties are not modelled; no claim depends on them. -/
def urlParse (s : String) : Except ProcErr URL :=
  if s.data.any (fun c => if c.toNat < 32 ∨ c.toNat = 127 then true else false) then
    .error .invalidURL
  else
    let pf := splitOnceChar '#' s.data
    let pq := splitOnceChar '?' pf.1
    match splitSchemeAux pq.1 with
    | some r =>
      let host := r.2.takeWhile (fun c => if c = '/' then false else true)
      let path := r.2.dropWhile (fun c => if c = '/' then false else true)
      .ok ⟨String.mk r.1, String.mk host, String.mk path, String.mk pq.2, String.mk pf.2⟩
    | none => .ok ⟨"", "", String.mk pq.1, String.mk pq.2, String.mk pf.2⟩

/-! ## Filesystem and world model -/

/-- Filesystem model: the list of directories that have been created and
an association list of files (newest first, so a later write to the same
path shadows an earlier one, mirroring create-and-truncate semantics).
File contents are byte lists.  Filesystem operations themselves never
fail in the model; environmental failures (permissions and the like) are
outside the embedding. -/
structure FS where
  dirs : List String
  files : List (String × List Nat)
deriving DecidableEq

/-- World state: the filesystem plus the verbose diagnostic log. -/
structure World where
  fs : FS
  logs : List String
deriving DecidableEq

/-- os.MkdirAll: record the created directory path. -/
def mkdirAll (fs : FS) (p : String) : FS := { fs with dirs := p :: fs.dirs }

/-- os.Create: create or truncate the file to empty contents. -/
def createFile (fs : FS) (p : String) : FS := { fs with files := (p, []) :: fs.files }

/-- file.Write / file.WriteString: replace the file's contents. -/
def writeFile (fs : FS) (p : String) (bs : List Nat) : FS :=
  { fs with files := (p, bs) :: fs.files }

/-- Configuration bundle carried through processing (the parsed flags). -/
structure Config where
  rootDir : String
  removeQueryString : Bool
  dryRun : Bool
  verbose : Bool
  hostAllowlist : List String
deriving DecidableEq

/-! ## UTF-8 and base64 (models of Go's string bytes and encoding/base64) -/

/-- Standard UTF-8 encoding of one character. -/
def utf8EncodeChar (c : Char) : List Nat :=
  let n := c.toNat
  if n < 128 then [n]
  else if n < 2048 then [192 + n / 64, 128 + n % 64]
  else if n < 65536 then [224 + n / 4096, 128 + (n / 64) % 64, 128 + n % 64]
  else [240 + n / 262144, 128 + (n / 4096) % 64, 128 + (n / 64) % 64, 128 + n % 64]

/-- The bytes of a Go string (Go strings are UTF-8; WriteString writes
exactly these bytes). -/
def utf8Encode (s : String) : List Nat :=
  (s.data.map utf8EncodeChar).flatten

/-- The standard base64 alphabet. -/
def b64Alphabet : List Char :=
  ['A', 'B', 'C', 'D', 'E', 'F', 'G', 'H', 'I', 'J', 'K', 'L', 'M',
   'N', 'O', 'P', 'Q', 'R', 'S', 'T', 'U', 'V', 'W', 'X', 'Y', 'Z',
   'a', 'b', 'c', 'd', 'e', 'f', 'g', 'h', 'i', 'j', 'k', 'l', 'm',
   'n', 'o', 'p', 'q', 'r', 's', 't', 'u', 'v', 'w', 'x', 'y', 'z',
   '0', '1', '2', '3', '4', '5', '6', '7', '8', '9', '+', '/']

/-- Character for a 6-bit value. -/
def b64Char (n : Nat) : Char := b64Alphabet.getD n 'A'

def b64IndexAux : List Char → Nat → Char → Option Nat
  | [], _, _ => none
  | a :: rest, i, c => if a = c then some i else b64IndexAux rest (i + 1) c

/-- Index of a character in the standard alphabet, none for non-alphabet
characters (including '='). -/
def b64Index (c : Char) : Option Nat := b64IndexAux b64Alphabet 0 c

/-- Model of Go base64.StdEncoding.EncodeToString, 3 bytes per quantum
with '=' padding. -/
def b64EncodeChunks : List Nat → List Char
  | a :: b :: c :: rest =>
    b64Char (a / 4) :: b64Char (a % 4 * 16 + b / 16) ::
      b64Char (b % 16 * 4 + c / 64) :: b64Char (c % 64) :: b64EncodeChunks rest
  | [a, b] => [b64Char (a / 4), b64Char (a % 4 * 16 + b / 16), b64Char (b % 16 * 4), '=']
  | [a] => [b64Char (a / 4), b64Char (a % 4 * 16), '=', '=']
  | [] => []

def b64Encode (bs : List Nat) : String := String.mk (b64EncodeChunks bs)

/-- Decode whole 4-character quanta; '=' padding is accepted only in the
final quantum, and (like Go's non-strict StdEncoding) non-zero trailing
bits before the padding are silently ignored. -/
def b64DecodeGroups : List Char → Option (List Nat)
  | [] => some []
  | w :: x :: y :: z :: rest =>
    (match b64Index w, b64Index x with
    | some iw, some ix =>
      if z = '=' then
        if rest = [] then
          if y = '=' then some [iw * 4 + ix / 16]
          else
            match b64Index y with
            | some iy => some [iw * 4 + ix / 16, ix % 16 * 16 + iy / 4]
            | none => none
        else none
      else
        match b64Index y, b64Index z with
        | some iy, some iz =>
          match b64DecodeGroups rest with
          | some bs => some ((iw * 4 + ix / 16) :: (ix % 16 * 16 + iy / 4) :: (iy % 4 * 64 + iz) :: bs)
          | none => none
        | _, _ => none
    | _, _ => none)
  | _ => none

/-- Model of Go base64.StdEncoding.DecodeString: carriage returns and
newlines anywhere in the input are ignored (documented Go behavior),
then whole padded quanta are decoded. -/
def b64Decode (s : String) : Except Unit (List Nat) :=
  match b64DecodeGroups (s.data.filter (fun c => if c = '\r' ∨ c = '\n' then false else true)) with
  | some bs => .ok bs
  | none => .error ()

/-! ## Entry materializer (processEntry, src/main.go lines 115-172) -/

/-- Destination directory (src/main.go line 131):
filepath.Join(rootDir, parsedUrl.Host, filepath.Dir(parsedUrl.Path)). -/
def entryDirPath (root : String) (u : URL) : String :=
  filepathJoin [root, u.host, filepathDir u.path]

/-- Destination file path (src/main.go line 140):
filepath.Join(dirPath, safeFileName(parsedUrl.Path)).  Note that the
sanitizer is applied to the WHOLE url path, not just its basename. -/
def entryFilePath (root : String) (u : URL) : String :=
  filepathJoin [entryDirPath root u, safeFileName u.path]

/-- The destination file path as claim C1 and the spec sentence state
it: the destination directory joined with the sanitized BASENAME portion
of the url path.  This follows the claim's words, for comparison with
the computation embedded from the source. -/
def claimedFilePath (root : String) (u : URL) : String :=
  filepathJoin [entryDirPath root u, safeFileName (pathBase u.path)]

/-- The body of processEntry after the host-allowlist check (src/main.go
lines 127-171): optional query-string stripping, directory creation
(skipped in dry-run), verbose logging, dry-run early return, file
creation, then base64-decoded or verbatim content write. -/
def processEntryAllowed (e : Entry) (u0 : URL) (cfg : Config) (w : World) :
    Except ProcErr Unit × World :=
  let u := if cfg.removeQueryString then { u0 with rawQuery := "" } else u0
  let dirPath := entryDirPath cfg.rootDir u
  let w1 := if cfg.dryRun then w else { w with fs := mkdirAll w.fs dirPath }
  let filePath := entryFilePath cfg.rootDir u
  let w2 := if cfg.verbose then { w1 with logs := w1.logs ++ [filePath] } else w1
  if cfg.dryRun then (.ok (), w2)
  else
    let w3 := { w2 with fs := createFile w2.fs filePath }
    if e.response.content.encoding = "base64" then
      match b64Decode e.response.content.text with
      | .error _ => (.error .encodingError, w3)
      | .ok data => (.ok (), { w3 with fs := writeFile w3.fs filePath data })
    else
      (.ok (), { w3 with fs := writeFile w3.fs filePath (utf8Encode e.response.content.text) })

/-- processEntry (src/main.go lines 115-172): parse the url, apply the
host allowlist (a non-empty allowlist not containing the host means a
silent successful skip), then materialize. -/
def processEntry (e : Entry) (cfg : Config) (w : World) : Except ProcErr Unit × World :=
  match urlParse e.request.url with
  | .error err => (.error err, w)
  | .ok u0 =>
    if 0 < cfg.hostAllowlist.length ∧ cfg.hostAllowlist.contains u0.host = false then
      (.ok (), w)
    else processEntryAllowed e u0 cfg w

/-! ## Streaming entry reader (processHar, src/main.go lines 72-113) -/

/-- Tokens as produced by Go's json.Decoder.Token: the four delimiters,
strings (field names and string values are indistinguishable), numbers,
booleans and null.  Commas and colons are elided by the tokenizer. -/
inductive JsonToken where
  | lbrace
  | rbrace
  | lbrack
  | rbrack
  | str (s : String)
  | num (n : Int)
  | boolTok (b : Bool)
  | null
deriving DecidableEq

/-- Generic JSON values, for modelling one decoder.Decode call. -/
inductive JsonValue where
  | obj (fields : List (String × JsonValue))
  | arr (elements : List JsonValue)
  | str (s : String)
  | num (n : Int)
  | boolVal (b : Bool)
  | null

/-- The scan loop of processHar (src/main.go lines 77-87): drop tokens
until one is a string token equal to "entries" (a field name and a
string value look alike to the tokenizer), returning the remainder after
it; none when the stream is exhausted first. -/
def scanForEntries : List JsonToken → Option (List JsonToken)
  | [] => none
  | t :: rest => if t = JsonToken.str ("entries") then some rest else scanForEntries rest

/-- decoder.More (used at src/main.go line 94): true when the stream has
a next token and it is not a closing delimiter. -/
def jsonMore : List JsonToken → Bool
  | [] => false
  | t :: _ => if t = JsonToken.rbrack ∨ t = JsonToken.rbrace then false else true

mutual
/-- Parse one JSON value from the token stream (the token-consuming part
of decoder.Decode).  Fuel only guards termination; processHar supplies
more fuel than the stream is long. -/
def parseValue : Nat → List JsonToken → Option (JsonValue × List JsonToken)
  | 0, _ => none
  | _ + 1, [] => none
  | f + 1, t :: rest =>
    match t with
    | .str s => some (.str s, rest)
    | .num n => some (.num n, rest)
    | .boolTok b => some (.boolVal b, rest)
    | .null => some (.null, rest)
    | .lbrack => parseArrayElems f rest []
    | .lbrace => parseObjectFields f rest []
    | .rbrack => none
    | .rbrace => none

def parseArrayElems : Nat → List JsonToken → List JsonValue → Option (JsonValue × List JsonToken)
  | 0, _, _ => none
  | f + 1, toks, acc =>
    match toks with
    | JsonToken.rbrack :: rest => some (.arr acc.reverse, rest)
    | _ =>
      match parseValue f toks with
      | some r => parseArrayElems f r.2 (r.1 :: acc)
      | none => none

def parseObjectFields : Nat → List JsonToken → List (String × JsonValue) →
    Option (JsonValue × List JsonToken)
  | 0, _, _ => none
  | f + 1, toks, acc =>
    match toks with
    | JsonToken.rbrace :: rest => some (.obj acc.reverse, rest)
    | JsonToken.str name :: rest =>
      match parseValue f rest with
      | some r => parseObjectFields f r.2 ((name, r.1) :: acc)
      | none => none
    | _ => none
end

/-- Last-occurrence field lookup (Go's json unmarshal lets a later
duplicate key win). -/
def jfield (fields : List (String × JsonValue)) (name : String) : Option JsonValue :=
  fields.reverse.lookup name

/-- Unmarshal a string-typed struct field: absent or null gives the zero
value, a non-string value is a type error. -/
def decodeStringField : Option JsonValue → Option String
  | none => some ""
  | some (.str s) => some s
  | some .null => some ""
  | some _ => none

/-- Unmarshal an int-typed struct field. -/
def decodeIntField : Option JsonValue → Option Int
  | none => some 0
  | some (.num n) => some n
  | some .null => some 0
  | some _ => none

/-- Unmarshal the content field of a Response. -/
def jsonToContent : Option JsonValue → Option Content
  | none => some zeroContent
  | some .null => some zeroContent
  | some (.obj fs) =>
    match decodeIntField (jfield fs ("size")), decodeStringField (jfield fs ("mimeType")),
        decodeStringField (jfield fs ("text")), decodeIntField (jfield fs ("compression")),
        decodeStringField (jfield fs ("encoding")) with
    | some size, some mt, some tx, some comp, some enc => some ⟨size, mt, tx, comp, enc⟩
    | _, _, _, _, _ => none
  | some _ => none

/-- Unmarshal the request field of an Entry. -/
def jsonToRequest : Option JsonValue → Option Request
  | none => some zeroRequest
  | some .null => some zeroRequest
  | some (.obj fs) =>
    match decodeStringField (jfield fs ("method")), decodeStringField (jfield fs ("url")) with
    | some m, some u => some ⟨m, u⟩
    | _, _ => none
  | some _ => none

/-- Unmarshal the response field of an Entry. -/
def jsonToResponse : Option JsonValue → Option Response
  | none => some zeroResponse
  | some .null => some zeroResponse
  | some (.obj fs) =>
    match decodeIntField (jfield fs ("status")), jsonToContent (jfield fs ("content")) with
    | some st, some ct => some ⟨st, ct⟩
    | _, _ => none
  | some _ => none

/-- Unmarshal one decoded JSON value into an Entry (decoder.Decode at
src/main.go line 96): unknown fields are ignored, absent fields keep
their zero values, a non-object non-null value is a type error. -/
def jsonToEntry (v : JsonValue) : Option Entry :=
  match v with
  | .null => some zeroEntry
  | .obj fs =>
    match jsonToRequest (jfield fs ("request")), jsonToResponse (jfield fs ("response")) with
    | some rq, some rs => some ⟨rq, rs⟩
    | _, _ => none
  | _ => none

/-- The per-entry loop of processHar (src/main.go lines 94-110) plus the
closing-token read: while More, decode one element and process it,
stopping with the current count at the first decode or processing error;
then consume one closing token (error when the stream is exhausted).
Also returns the unconsumed remainder of the stream. -/
def entriesLoop : Nat → List JsonToken → Config → World → Nat →
    Nat × Except ProcErr Unit × World × List JsonToken
  | 0, toks, _, w, c => (c, .error .malformedInput, w, toks)
  | f + 1, toks, cfg, w, c =>
    if jsonMore toks then
      match parseValue (f + 1) toks with
      | none => (c, .error .malformedInput, w, toks)
      | some (v, rest) =>
        match jsonToEntry v with
        | none => (c, .error .malformedInput, w, rest)
        | some e =>
          match processEntry e cfg w with
          | (.error err, w') => (c, .error err, w', rest)
          | (.ok _, w') => entriesLoop f rest cfg w' (c + 1)
    else
      match toks with
      | [] => (c, .error .malformedInput, w, [])
      | _ :: rest => (c, .ok (), w, rest)

/-- processHar (src/main.go lines 72-113): scan for the "entries" string
token (failing with the error count 0 when the stream ends first), read
ONE more token checking only that it exists -- its kind is not examined
-- then run the per-entry loop.  Returns the processed-entry count, the
result, and the final world. -/
def processHar (toks : List JsonToken) (cfg : Config) (w : World) :
    Nat × Except ProcErr Unit × World :=
  match scanForEntries toks with
  | none => (0, .error .malformedInput, w)
  | some [] => (0, .error .malformedInput, w)
  | some (_ :: rest2) =>
    let r := entriesLoop (toks.length + 1) rest2 cfg w 0
    (r.1, r.2.1, r.2.2.1)

/-- Canonical token stream of one HAR entry, 27 tokens.  Used to state
theorems about the loop on arbitrary decoded entries. -/
def entryToTokens (e : Entry) : List JsonToken :=
  [.lbrace, .str ("request"), .lbrace,
   .str ("method"), .str e.request.method,
   .str ("url"), .str e.request.url,
   .rbrace,
   .str ("response"), .lbrace,
   .str ("status"), .num e.response.status,
   .str ("content"), .lbrace,
   .str ("size"), .num e.response.content.size,
   .str ("mimeType"), .str e.response.content.mimeType,
   .str ("text"), .str e.response.content.text,
   .str ("compression"), .num e.response.content.compression,
   .str ("encoding"), .str e.response.content.encoding,
   .rbrace, .rbrace, .rbrace]

/-- The JSON value those tokens parse to. -/
def entryJson (e : Entry) : JsonValue :=
  .obj [("request", .obj [("method", .str e.request.method), ("url", .str e.request.url)]),
        ("response", .obj [("status", .num e.response.status),
          ("content", .obj [("size", .num e.response.content.size),
            ("mimeType", .str e.response.content.mimeType),
            ("text", .str e.response.content.text),
            ("compression", .num e.response.content.compression),
            ("encoding", .str e.response.content.encoding)])])]

/-- Token prefix of a well-formed HAR document up to and including the
opening bracket of log.entries. -/
def harHeader : List JsonToken :=
  [.lbrace, .str ("log"), .lbrace, .str ("entries"), .lbrack]

/-- Token suffix closing the entries array, the log object and the
document. -/
def harFooter : List JsonToken := [.rbrack, .rbrace, .rbrace]

/-! ## Helper lemmas about the scan and the parser -/

/-- The scan stops at the first string token equal to "entries". -/
theorem scanForEntries_append (pre post : List JsonToken)
    (h : JsonToken.str ("entries") ∉ pre) :
    scanForEntries (pre ++ JsonToken.str ("entries") :: post) = some post := by
  induction pre with
  | nil => simp [scanForEntries]
  | cons t rest ih =>
    have ht : t ≠ JsonToken.str ("entries") := by
      intro hcon
      exact h (by simp [hcon])
    have hrest : JsonToken.str ("entries") ∉ rest := by
      intro hcon
      exact h (by simp [hcon])
    simp [scanForEntries, ht, ih hrest]

/-- The scan fails exactly on streams with no "entries" string token. -/
theorem scanForEntries_none (toks : List JsonToken)
    (h : JsonToken.str ("entries") ∉ toks) : scanForEntries toks = none := by
  induction toks with
  | nil => rfl
  | cons t rest ih =>
    have ht : t ≠ JsonToken.str ("entries") := by
      intro hcon
      exact h (by simp [hcon])
    have hrest : JsonToken.str ("entries") ∉ rest := by
      intro hcon
      exact h (by simp [hcon])
    simp [scanForEntries, ht, ih hrest]

/-- Parsing the canonical token form of an entry consumes exactly those
27 tokens and yields its JSON value, for any sufficient fuel. -/
theorem parseValue_entryTokens (e : Entry) (rest : List JsonToken) (k : Nat) :
    parseValue (k + 28) (entryToTokens e ++ rest) = some (entryJson e, rest) := rfl

/-- Unmarshalling the canonical JSON value of an entry recovers it. -/
theorem jsonToEntry_entryJson (e : Entry) : jsonToEntry (entryJson e) = some e := rfl

/-- An entry's token form starts with an opening brace, so More is true. -/
theorem jsonMore_entryTokens (e : Entry) (rest : List JsonToken) :
    jsonMore (entryToTokens e ++ rest) = true := rfl

/-- One successful loop iteration over a canonically encoded entry. -/
theorem entriesLoop_step_ok (k : Nat) (e : Entry) (rest : List JsonToken) (cfg : Config)
    (w w' : World) (c : Nat) (hpe : processEntry e cfg w = (.ok (), w')) :
    entriesLoop (k + 28) (entryToTokens e ++ rest) cfg w c
      = entriesLoop (k + 27) rest cfg w' (c + 1) := by
  have h2 : entriesLoop (k + 28) (entryToTokens e ++ rest) cfg w c
      = match processEntry e cfg w with
        | (.error err, w'') => (c, .error err, w'', rest)
        | (.ok _, w'') => entriesLoop (k + 27) rest cfg w'' (c + 1) := rfl
  rw [h2, hpe]

/-- A loop iteration where processing the decoded entry fails: the loop
stops at once with the current count and the failing entry's world. -/
theorem entriesLoop_step_err (k : Nat) (e : Entry) (rest : List JsonToken) (cfg : Config)
    (w w' : World) (c : Nat) (err : ProcErr)
    (hpe : processEntry e cfg w = (.error err, w')) :
    entriesLoop (k + 28) (entryToTokens e ++ rest) cfg w c = (c, .error err, w', rest) := by
  have h2 : entriesLoop (k + 28) (entryToTokens e ++ rest) cfg w c
      = match processEntry e cfg w with
        | (.error err', w'') => (c, .error err', w'', rest)
        | (.ok _, w'') => entriesLoop (k + 27) rest cfg w'' (c + 1) := rfl
  rw [h2, hpe]

/-- A loop iteration on an array element that is a bare number: the
element decode fails and the loop stops with the current count. -/
theorem entriesLoop_step_badnum (f : Nat) (n : Int) (rest : List JsonToken) (cfg : Config)
    (w : World) (c : Nat) :
    entriesLoop (f + 1) (JsonToken.num n :: rest) cfg w c
      = (c, .error .malformedInput, w, rest) := rfl

/-- When the next token closes the array, the loop consumes it and
returns successfully with the current count. -/
theorem entriesLoop_close (f : Nat) (rest : List JsonToken) (cfg : Config)
    (w : World) (c : Nat) :
    entriesLoop (f + 1) (JsonToken.rbrack :: rest) cfg w c = (c, .ok (), w, rest) := rfl

/-! ## Helper lemmas about paths and the materializer -/

/-- Sanitized names contain no separator characters. -/
theorem safeFileName_no_sep (s : String) :
    ∀ c ∈ (safeFileName s).data, c ≠ '/' ∧ c ≠ '\\' := by
  intro c hc
  simp only [safeFileName] at hc
  rcases List.mem_map.mp hc with ⟨a, _, rfl⟩
  by_cases h : a = '/' ∨ a = '\\'
  · simp [h]
  · push_neg at h
    simp [h.1, h.2]

/-- Clearing the raw query leaves the destination directory unchanged:
it is computed from the host and path components only. -/
theorem entryDirPath_rawQuery (root : String) (u : URL) :
    entryDirPath root { u with rawQuery := "" } = entryDirPath root u := rfl

/-- Clearing the raw query leaves the destination file path unchanged. -/
theorem entryFilePath_rawQuery (root : String) (u : URL) :
    entryFilePath root { u with rawQuery := "" } = entryFilePath root u := rfl

/-! ## Base64 round-trip lemmas -/

/-- Alphabet characters are distinct from carriage return, newline and
the padding character. -/
theorem b64Char_props : ∀ n, n < 64 →
    b64Char n ≠ '\r' ∧ b64Char n ≠ '\n' ∧ b64Char n ≠ '=' := by decide

/-- Looking up the character of a 6-bit value recovers the value. -/
theorem b64Index_b64Char : ∀ n, n < 64 → b64Index (b64Char n) = some n := by decide

/-- The encoder emits only alphabet characters and padding, never a
carriage return or newline. -/
theorem b64EncodeChunks_no_newline (bs : List Nat) (h : ∀ b ∈ bs, b < 256) :
    ∀ x ∈ b64EncodeChunks bs, ¬x = '\r' ∧ ¬x = '\n' := by
  match bs with
  | [] => simp [b64EncodeChunks]
  | [a] =>
    have ha : a < 256 := h a (by simp)
    have h1 := b64Char_props (a / 4) (by omega)
    have h2 := b64Char_props (a % 4 * 16) (by omega)
    intro x hx
    simp [b64EncodeChunks] at hx
    rcases hx with rfl | rfl | rfl
    · exact ⟨h1.1, h1.2.1⟩
    · exact ⟨h2.1, h2.2.1⟩
    · decide
  | [a, b] =>
    have ha : a < 256 := h a (by simp)
    have hb : b < 256 := h b (by simp)
    have h1 := b64Char_props (a / 4) (by omega)
    have h2 := b64Char_props (a % 4 * 16 + b / 16) (by omega)
    have h3 := b64Char_props (b % 16 * 4) (by omega)
    intro x hx
    simp [b64EncodeChunks] at hx
    rcases hx with rfl | rfl | rfl | rfl
    · exact ⟨h1.1, h1.2.1⟩
    · exact ⟨h2.1, h2.2.1⟩
    · exact ⟨h3.1, h3.2.1⟩
    · decide
  | a :: b :: c :: rest =>
    have ha : a < 256 := h a (by simp)
    have hb : b < 256 := h b (by simp)
    have hc : c < 256 := h c (by simp)
    have ih := b64EncodeChunks_no_newline rest (fun x hx => h x (by simp [hx]))
    have h1 := b64Char_props (a / 4) (by omega)
    have h2 := b64Char_props (a % 4 * 16 + b / 16) (by omega)
    have h3 := b64Char_props (b % 16 * 4 + c / 64) (by omega)
    have h4 := b64Char_props (c % 64) (by omega)
    intro x hx
    simp [b64EncodeChunks] at hx
    rcases hx with rfl | rfl | rfl | rfl | hmem
    · exact ⟨h1.1, h1.2.1⟩
    · exact ⟨h2.1, h2.2.1⟩
    · exact ⟨h3.1, h3.2.1⟩
    · exact ⟨h4.1, h4.2.1⟩
    · exact ih x hmem

/-- The newline-dropping filter of the decoder leaves encoder output
unchanged. -/
theorem b64EncodeChunks_filter (bs : List Nat) (h : ∀ b ∈ bs, b < 256) :
    (b64EncodeChunks bs).filter (fun c => if c = '\r' ∨ c = '\n' then false else true)
      = b64EncodeChunks bs := by
  rw [List.filter_eq_self]
  intro x hx
  have hx2 := b64EncodeChunks_no_newline bs h x hx
  simp [hx2.1, hx2.2]

/-- Decoding encoder output recovers the input bytes. -/
theorem b64DecodeGroups_encodeChunks (bs : List Nat) (h : ∀ b ∈ bs, b < 256) :
    b64DecodeGroups (b64EncodeChunks bs) = some bs := by
  match bs with
  | [] => rfl
  | [a] =>
    have ha : a < 256 := h a (by simp)
    have i1 := b64Index_b64Char (a / 4) (by omega)
    have i2 := b64Index_b64Char (a % 4 * 16) (by omega)
    simp [b64EncodeChunks, b64DecodeGroups, i1, i2]
    omega
  | [a, b] =>
    have ha : a < 256 := h a (by simp)
    have hb : b < 256 := h b (by simp)
    have i1 := b64Index_b64Char (a / 4) (by omega)
    have i2 := b64Index_b64Char (a % 4 * 16 + b / 16) (by omega)
    have i3 := b64Index_b64Char (b % 16 * 4) (by omega)
    have h3 := b64Char_props (b % 16 * 4) (by omega)
    simp [b64EncodeChunks, b64DecodeGroups, i1, i2, i3, h3.2.2]
    constructor <;> omega
  | a :: b :: c :: rest =>
    have ha : a < 256 := h a (by simp)
    have hb : b < 256 := h b (by simp)
    have hc : c < 256 := h c (by simp)
    have ih := b64DecodeGroups_encodeChunks rest (fun x hx => h x (by simp [hx]))
    have i1 := b64Index_b64Char (a / 4) (by omega)
    have i2 := b64Index_b64Char (a % 4 * 16 + b / 16) (by omega)
    have i3 := b64Index_b64Char (b % 16 * 4 + c / 64) (by omega)
    have i4 := b64Index_b64Char (c % 64) (by omega)
    have h4 := b64Char_props (c % 64) (by omega)
    simp [b64EncodeChunks, b64DecodeGroups, i1, i2, i3, i4, h4.2.2, ih]
    refine ⟨by omega, by omega, by omega⟩

/-- The base64 round trip on canonical encodings: decoding the standard
encoding of a byte sequence gives back that sequence. -/
theorem b64_roundtrip (bs : List Nat) (h : ∀ b ∈ bs, b < 256) :
    b64Decode (b64Encode bs) = .ok bs := by
  unfold b64Decode b64Encode
  rw [show (String.mk (b64EncodeChunks bs)).data = b64EncodeChunks bs from rfl]
  rw [b64EncodeChunks_filter bs h, b64DecodeGroups_encodeChunks bs h]

/-! ## Materializer helper lemmas -/

/-- processEntryAllowed in canonical form: since the destination paths
are invariant under clearing the raw query, the query-stripping branch
can be eliminated from the body. -/
theorem processEntryAllowed_eq (e : Entry) (u0 : URL) (cfg : Config) (w : World) :
    processEntryAllowed e u0 cfg w =
      (let dirPath := entryDirPath cfg.rootDir u0
       let w1 := if cfg.dryRun then w else { w with fs := mkdirAll w.fs dirPath }
       let filePath := entryFilePath cfg.rootDir u0
       let w2 := if cfg.verbose then { w1 with logs := w1.logs ++ [filePath] } else w1
       if cfg.dryRun then (.ok (), w2)
       else
         let w3 := { w2 with fs := createFile w2.fs filePath }
         if e.response.content.encoding = "base64" then
           match b64Decode e.response.content.text with
           | .error _ => (.error .encodingError, w3)
           | .ok data => (.ok (), { w3 with fs := writeFile w3.fs filePath data })
         else
           (.ok (),
             { w3 with fs := writeFile w3.fs filePath (utf8Encode e.response.content.text) })) := by
  unfold processEntryAllowed
  cases hr : cfg.removeQueryString <;>
    simp [hr, entryDirPath_rawQuery, entryFilePath_rawQuery]

/-- In dry-run mode no step of entry processing touches the filesystem. -/
theorem processEntry_dry_fs (e : Entry) (cfg : Config) (w : World) (h : cfg.dryRun = true) :
    (processEntry e cfg w).2.fs = w.fs := by
  unfold processEntry
  cases hp : urlParse e.request.url with
  | error err => rfl
  | ok u0 =>
    show (if 0 < cfg.hostAllowlist.length ∧ cfg.hostAllowlist.contains u0.host = false
        then (Except.ok (), w) else processEntryAllowed e u0 cfg w).2.fs = w.fs
    split
    · rfl
    · rw [processEntryAllowed_eq]
      simp [h]
      by_cases hv : cfg.verbose = true <;> simp [hv]

/-- In dry-run mode the whole entry loop leaves the filesystem alone. -/
theorem entriesLoop_dry_fs (cfg : Config) (h : cfg.dryRun = true) :
    ∀ f toks w c, ((entriesLoop f toks cfg w c).2.2.1).fs = w.fs := by
  intro f
  induction f with
  | zero => intro toks w c; rfl
  | succ f ih =>
    intro toks w c
    have hstep : entriesLoop (f + 1) toks cfg w c =
        if jsonMore toks then
          match parseValue (f + 1) toks with
          | none => (c, .error .malformedInput, w, toks)
          | some (v, rest) =>
            match jsonToEntry v with
            | none => (c, .error .malformedInput, w, rest)
            | some e =>
              match processEntry e cfg w with
              | (.error err, w') => (c, .error err, w', rest)
              | (.ok _, w') => entriesLoop f rest cfg w' (c + 1)
        else
          match toks with
          | [] => (c, .error .malformedInput, w, [])
          | _ :: rest => (c, .ok (), w, rest) := rfl
    rw [hstep]
    by_cases hm : jsonMore toks
    · rw [if_pos hm]
      cases hp : parseValue (f + 1) toks with
      | none => rfl
      | some r =>
        cases r with
        | mk v rest =>
          cases hj : jsonToEntry v with
          | none => simp [hj]
          | some e =>
            rcases hpe : processEntry e cfg w with ⟨res, w'⟩
            have hw' : w'.fs = w.fs := by
              have := processEntry_dry_fs e cfg w h
              rw [hpe] at this
              exact this
            cases res with
            | error err => simp [hj, hpe, hw']
            | ok _ =>
              simp only [hj, hpe]
              rw [ih rest w' (c + 1), hw']
    · rw [if_neg hm]
      cases toks with
      | nil => rfl
      | cons t rest => rfl

/-- When the url parses and the host is allowed (or the allowlist is
empty), processEntry is exactly the materializer body. -/
theorem processEntry_allowed_case (e : Entry) (cfg : Config) (w : World) (u : URL)
    (hu : urlParse e.request.url = .ok u)
    (ha : cfg.hostAllowlist = [] ∨ cfg.hostAllowlist.contains u.host = true) :
    processEntry e cfg w = processEntryAllowed e u cfg w := by
  unfold processEntry
  rw [hu]
  have hskip : ¬(0 < cfg.hostAllowlist.length ∧ cfg.hostAllowlist.contains u.host = false) := by
    rcases ha with h1 | h1
    · simp [h1]
    · intro hcon
      rw [h1] at hcon
      simp at hcon
  show (if 0 < cfg.hostAllowlist.length ∧ cfg.hostAllowlist.contains u.host = false
      then (Except.ok (), w) else processEntryAllowed e u cfg w) = processEntryAllowed e u cfg w
  rw [if_neg hskip]

/-- Non-dry materialization of a plain-text entry, fully evaluated. -/
theorem processEntryAllowed_text (e : Entry) (u : URL) (cfg : Config) (w : World)
    (hd : cfg.dryRun = false) (he : e.response.content.encoding ≠ "base64") :
    processEntryAllowed e u cfg w =
      (.ok (), ⟨⟨entryDirPath cfg.rootDir u :: w.fs.dirs,
        (entryFilePath cfg.rootDir u, utf8Encode e.response.content.text) ::
          (entryFilePath cfg.rootDir u, []) :: w.fs.files⟩,
        if cfg.verbose then w.logs ++ [entryFilePath cfg.rootDir u] else w.logs⟩) := by
  obtain ⟨⟨dirs, files⟩, logs⟩ := w
  rw [processEntryAllowed_eq]
  by_cases hv : cfg.verbose = true <;>
    simp [hd, hv, he, mkdirAll, createFile, writeFile]

/-- Non-dry materialization of a base64 entry with decodable text. -/
theorem processEntryAllowed_b64_ok (e : Entry) (u : URL) (cfg : Config) (w : World)
    (data : List Nat) (hd : cfg.dryRun = false)
    (he : e.response.content.encoding = "base64")
    (hb : b64Decode e.response.content.text = .ok data) :
    processEntryAllowed e u cfg w =
      (.ok (), ⟨⟨entryDirPath cfg.rootDir u :: w.fs.dirs,
        (entryFilePath cfg.rootDir u, data) ::
          (entryFilePath cfg.rootDir u, []) :: w.fs.files⟩,
        if cfg.verbose then w.logs ++ [entryFilePath cfg.rootDir u] else w.logs⟩) := by
  obtain ⟨⟨dirs, files⟩, logs⟩ := w
  rw [processEntryAllowed_eq]
  by_cases hv : cfg.verbose = true <;>
    simp [hd, hv, he, hb, mkdirAll, createFile, writeFile]

/-- Non-dry materialization of a base64 entry with invalid text: the
error is reported; the created directory and the empty created file
remain behind. -/
theorem processEntryAllowed_b64_err (e : Entry) (u : URL) (cfg : Config) (w : World)
    (hd : cfg.dryRun = false) (he : e.response.content.encoding = "base64")
    (hb : b64Decode e.response.content.text = .error ()) :
    processEntryAllowed e u cfg w =
      (.error .encodingError, ⟨⟨entryDirPath cfg.rootDir u :: w.fs.dirs,
        (entryFilePath cfg.rootDir u, []) :: w.fs.files⟩,
        if cfg.verbose then w.logs ++ [entryFilePath cfg.rootDir u] else w.logs⟩) := by
  obtain ⟨⟨dirs, files⟩, logs⟩ := w
  rw [processEntryAllowed_eq]
  by_cases hv : cfg.verbose = true <;>
    simp [hd, hv, he, hb, mkdirAll, createFile, writeFile]

/-- Association-list lookup finds the newest binding. -/
theorem lookup_cons_self (p : String) (x : List Nat) (l : List (String × List Nat)) :
    ((p, x) :: l).lookup p = some x := by
  simp [List.lookup]

/-! ## Example values used by witnesses and counterexamples -/

/-- Empty world: empty filesystem, no logs. -/
def w0 : World := ⟨⟨[], []⟩, []⟩

/-- A parsed example URL. -/
def exURL : URL := ⟨"https", "example.com", "/a/b.txt", "", ""⟩

/-- An entry whose response is plain text. -/
def exC1Entry : Entry :=
  ⟨⟨"GET", "https://example.com/a/b.txt"⟩, ⟨200, ⟨2, "text/plain", "hi", 0, ""⟩⟩⟩

/-- An entry on a host outside the example allowlist. -/
def exSkipEntry : Entry := ⟨⟨"GET", "https://example.org/x"⟩, zeroResponse⟩

/-- An entry on the example allowlist host. -/
def exComEntry : Entry := ⟨⟨"GET", "https://example.com/x"⟩, zeroResponse⟩

/-! ## Claims -/

/-- C1 counterexample: for the URL path "/a/b.txt" under root "out" the
code computes the destination file path by sanitizing the WHOLE url
path, so the final path component is "-a-b.txt" (under directory
"out/example.com/a"), while the claim's formula (directory joined with
the sanitized basename portion) gives final component "b.txt"; the two
paths differ. -/
theorem C1_counterexample :
    urlParse ("https://example.com/a/b.txt") = .ok exURL
    ∧ entryFilePath ("out") exURL = "out/example.com/a/-a-b.txt"
    ∧ claimedFilePath ("out") exURL = "out/example.com/a/b.txt"
    ∧ entryFilePath ("out") exURL ≠ claimedFilePath ("out") exURL :=
  ⟨rfl, rfl, rfl, by decide⟩

/-- C1 (amended): for every entry that reaches step 6, the destination
file path is the destination directory joined with the sanitization of
the ENTIRE url path (entryFilePath), a file is produced at exactly that
path in every non-dry run, and the sanitized component contains no
forward slash or backslash. -/
theorem C1_amended (e : Entry) (cfg : Config) (w : World) (u : URL)
    (hu : urlParse e.request.url = .ok u)
    (ha : cfg.hostAllowlist = [] ∨ cfg.hostAllowlist.contains u.host = true)
    (hd : cfg.dryRun = false) :
    ((processEntry e cfg w).2.fs.files.lookup (entryFilePath cfg.rootDir u)).isSome = true
    ∧ ∀ c ∈ (safeFileName u.path).data, c ≠ '/' ∧ c ≠ '\\' := by
  refine ⟨?_, safeFileName_no_sep u.path⟩
  rw [processEntry_allowed_case e cfg w u hu ha]
  by_cases he : e.response.content.encoding = "base64"
  · cases hb : b64Decode e.response.content.text with
    | error uu =>
      rw [processEntryAllowed_b64_err e u cfg w hd he hb]
      simp [lookup_cons_self]
    | ok data =>
      rw [processEntryAllowed_b64_ok e u cfg w data hd he hb]
      simp [lookup_cons_self]
  · rw [processEntryAllowed_text e u cfg w hd he]
    simp [lookup_cons_self]

/-- C1 witness: the amended claim at the example entry. -/
theorem C1_witness :
    ((processEntry exC1Entry ⟨"out", false, false, false, []⟩ w0).2.fs.files.lookup
      (entryFilePath ("out") exURL)).isSome = true
    ∧ ∀ c ∈ (safeFileName ("/a/b.txt")).data, c ≠ '/' ∧ c ≠ '\\' :=
  C1_amended exC1Entry ⟨"out", false, false, false, []⟩ w0 exURL rfl (Or.inl rfl) rfl

/-- C4: the remove-query-string option changes no observable output of
entry processing: the result and the whole world state are identical for
any two settings of the flag, because the destination paths are derived
only from the parsed URL's host and path components. -/
theorem C4_removeQueryString_noop (e : Entry) (root : String) (r1 r2 dry verb : Bool)
    (allow : List String) (w : World) :
    processEntry e ⟨root, r1, dry, verb, allow⟩ w
      = processEntry e ⟨root, r2, dry, verb, allow⟩ w := by
  unfold processEntry
  cases hp : urlParse e.request.url with
  | error err => rfl
  | ok u0 => simp [processEntryAllowed_eq]

/-- C5: with a non-empty allowlist not containing the URL's host, entry
processing returns success and leaves the world untouched; with an empty
allowlist no entry is skipped by this check (processing proceeds exactly
as if the entry's own host were explicitly allowed). -/
theorem C5_host_allowlist :
    (∀ (e : Entry) (cfg : Config) (w : World) (u : URL),
      urlParse e.request.url = .ok u →
      cfg.hostAllowlist ≠ [] →
      cfg.hostAllowlist.contains u.host = false →
      processEntry e cfg w = (.ok (), w))
    ∧ (∀ (e : Entry) (root : String) (rqs dry verb : Bool) (w : World) (u : URL),
      urlParse e.request.url = .ok u →
      processEntry e ⟨root, rqs, dry, verb, []⟩ w
        = processEntry e ⟨root, rqs, dry, verb, [u.host]⟩ w) := by
  constructor
  · intro e cfg w u hu hne hc
    unfold processEntry
    rw [hu]
    have hlen : 0 < cfg.hostAllowlist.length := by
      cases hl : cfg.hostAllowlist with
      | nil => exact absurd hl hne
      | cons a t => simp [hl]
    have hc' : u.host ∉ cfg.hostAllowlist := by simpa using hc
    simp [hlen, hc']
  · intro e root rqs dry verb w u hu
    unfold processEntry
    rw [hu]
    simp [processEntryAllowed_eq]

/-- C5 witness: the skip case on a host outside the allowlist, and the
empty-allowlist case on an allowed host. -/
theorem C5_witness :
    processEntry exSkipEntry ⟨"out", false, false, false, ["example.com"]⟩ w0 = (.ok (), w0)
    ∧ processEntry exComEntry ⟨"out", false, false, false, []⟩ w0
      = processEntry exComEntry ⟨"out", false, false, false, ["example.com"]⟩ w0 :=
  ⟨C5_host_allowlist.1 exSkipEntry ⟨"out", false, false, false, ["example.com"]⟩ w0
      ⟨"https", "example.org", "/x", "", ""⟩ rfl (by decide) rfl,
   C5_host_allowlist.2 exComEntry "out" false false false w0
      ⟨"https", "example.com", "/x", "", ""⟩ rfl⟩

/-- C6: a dry run performs zero filesystem writes over a whole document
(the filesystem after processHar is the one before), and each entry
whose URL parses reports success in dry-run mode. -/
theorem C6_dry_run :
    (∀ (toks : List JsonToken) (cfg : Config) (w : World), cfg.dryRun = true →
      ((processHar toks cfg w).2.2).fs = w.fs)
    ∧ (∀ (e : Entry) (cfg : Config) (w : World) (u : URL), cfg.dryRun = true →
      urlParse e.request.url = .ok u → (processEntry e cfg w).1 = .ok ()) := by
  constructor
  · intro toks cfg w h
    unfold processHar
    cases hs : scanForEntries toks with
    | none => rfl
    | some rest =>
      cases rest with
      | nil => rfl
      | cons t rest2 =>
        exact entriesLoop_dry_fs cfg h (toks.length + 1) rest2 w 0
  · intro e cfg w u h hu
    unfold processEntry
    rw [hu]
    show (if 0 < cfg.hostAllowlist.length ∧ cfg.hostAllowlist.contains u.host = false
        then (Except.ok (), w) else processEntryAllowed e u cfg w).1 = .ok ()
    split
    · rfl
    · rw [processEntryAllowed_eq]
      simp [h]

/-- C6 witness: a dry run over an empty entries array and over one
concrete entry. -/
theorem C6_witness :
    ((processHar [JsonToken.lbrace, JsonToken.str ("entries"), JsonToken.lbrack,
        JsonToken.rbrack, JsonToken.rbrace] ⟨"out", false, true, false, []⟩ w0).2.2).fs = w0.fs
    ∧ (processEntry exComEntry ⟨"out", false, true, false, []⟩ w0).1 = .ok () :=
  ⟨C6_dry_run.1 [JsonToken.lbrace, JsonToken.str ("entries"), JsonToken.lbrack,
      JsonToken.rbrack, JsonToken.rbrace] ⟨"out", false, true, false, []⟩ w0 rfl,
   C6_dry_run.2 exComEntry ⟨"out", false, true, false, []⟩ w0
      ⟨"https", "example.com", "/x", "", ""⟩ rfl rfl⟩

/-- C7: a base64-marked entry whose text does not decode fails with the
encoding error, and the already-created empty destination file and the
created destination directory remain on disk (no rollback). -/
theorem C7_base64_error (e : Entry) (cfg : Config) (w : World) (u : URL)
    (hu : urlParse e.request.url = .ok u)
    (ha : cfg.hostAllowlist = [] ∨ cfg.hostAllowlist.contains u.host = true)
    (hd : cfg.dryRun = false)
    (he : e.response.content.encoding = "base64")
    (hb : b64Decode e.response.content.text = .error ()) :
    (processEntry e cfg w).1 = .error .encodingError
    ∧ (processEntry e cfg w).2.fs.files.lookup (entryFilePath cfg.rootDir u) = some []
    ∧ entryDirPath cfg.rootDir u ∈ (processEntry e cfg w).2.fs.dirs := by
  rw [processEntry_allowed_case e cfg w u hu ha]
  rw [processEntryAllowed_b64_err e u cfg w hd he hb]
  refine ⟨rfl, lookup_cons_self _ _ _, ?_⟩
  simp

/-- C7 witness: a base64 entry with undecodable text under an empty
allowlist, non-dry configuration. -/
theorem C7_witness :
    (processEntry ⟨⟨"GET", "https://example.com/p/q"⟩, ⟨200, ⟨0, "", "!!!!", 0, "base64"⟩⟩⟩
        ⟨"out", false, false, false, []⟩ w0).1 = .error .encodingError
    ∧ (processEntry ⟨⟨"GET", "https://example.com/p/q"⟩, ⟨200, ⟨0, "", "!!!!", 0, "base64"⟩⟩⟩
        ⟨"out", false, false, false, []⟩ w0).2.fs.files.lookup
        (entryFilePath ("out") ⟨"https", "example.com", "/p/q", "", ""⟩) = some []
    ∧ entryDirPath ("out") ⟨"https", "example.com", "/p/q", "", ""⟩
      ∈ (processEntry ⟨⟨"GET", "https://example.com/p/q"⟩, ⟨200, ⟨0, "", "!!!!", 0, "base64"⟩⟩⟩
        ⟨"out", false, false, false, []⟩ w0).2.fs.dirs :=
  C7_base64_error ⟨⟨"GET", "https://example.com/p/q"⟩, ⟨200, ⟨0, "", "!!!!", 0, "base64"⟩⟩⟩
    ⟨"out", false, false, false, []⟩ w0 ⟨"https", "example.com", "/p/q", "", ""⟩
    rfl (Or.inl rfl) rfl rfl rfl

/-- C9 counterexample: the text "aGk=" followed by a newline is valid
base64 to Go's decoder (which ignores newlines), the entry is written
without error, but re-encoding the written bytes gives "aGk=", not the
original text: the round trip as claimed fails. -/
theorem C9_counterexample :
    b64Decode ("aGk=\n") = .ok [104, 105]
    ∧ (processEntry ⟨⟨"GET", "https://example.com/p/q"⟩, ⟨200, ⟨0, "", "aGk=\n", 0, "base64"⟩⟩⟩
        ⟨"out", false, false, false, []⟩ w0).1 = .ok ()
    ∧ (processEntry ⟨⟨"GET", "https://example.com/p/q"⟩, ⟨200, ⟨0, "", "aGk=\n", 0, "base64"⟩⟩⟩
        ⟨"out", false, false, false, []⟩ w0).2.fs.files.lookup
        (entryFilePath ("out") ⟨"https", "example.com", "/p/q", "", ""⟩) = some [104, 105]
    ∧ b64Encode [104, 105] ≠ "aGk=\n" :=
  ⟨rfl, rfl, rfl, by decide⟩

/-- C9 (amended): the round trip holds for canonically encoded content:
whenever content.text IS the standard base64 encoding of a byte
sequence, that byte sequence is written without error and re-encoding it
yields content.text exactly.  (For merely-valid but non-canonical text,
such as text containing ignored newlines, re-encoding can differ.) -/
theorem C9_amended (e : Entry) (cfg : Config) (w : World) (u : URL) (bs : List Nat)
    (hbytes : ∀ b ∈ bs, b < 256)
    (htext : e.response.content.text = b64Encode bs)
    (he : e.response.content.encoding = "base64")
    (hu : urlParse e.request.url = .ok u)
    (ha : cfg.hostAllowlist = [] ∨ cfg.hostAllowlist.contains u.host = true)
    (hd : cfg.dryRun = false) :
    (processEntry e cfg w).1 = .ok ()
    ∧ (processEntry e cfg w).2.fs.files.lookup (entryFilePath cfg.rootDir u) = some bs
    ∧ b64Encode bs = e.response.content.text := by
  have hdec : b64Decode e.response.content.text = .ok bs := by
    rw [htext]
    exact b64_roundtrip bs hbytes
  rw [processEntry_allowed_case e cfg w u hu ha]
  rw [processEntryAllowed_b64_ok e u cfg w bs hd he hdec]
  exact ⟨rfl, lookup_cons_self _ _ _, htext.symm⟩

/-- C9 witness: the amended round trip at the two bytes 104, 105. -/
theorem C9_witness :
    (processEntry ⟨⟨"GET", "https://example.com/p/q"⟩, ⟨200, ⟨0, "", "aGk=", 0, "base64"⟩⟩⟩
        ⟨"out", false, false, false, []⟩ w0).1 = .ok ()
    ∧ (processEntry ⟨⟨"GET", "https://example.com/p/q"⟩, ⟨200, ⟨0, "", "aGk=", 0, "base64"⟩⟩⟩
        ⟨"out", false, false, false, []⟩ w0).2.fs.files.lookup
        (entryFilePath ("out") ⟨"https", "example.com", "/p/q", "", ""⟩) = some [104, 105]
    ∧ b64Encode [104, 105] = "aGk=" :=
  C9_amended ⟨⟨"GET", "https://example.com/p/q"⟩, ⟨200, ⟨0, "", "aGk=", 0, "base64"⟩⟩⟩
    ⟨"out", false, false, false, []⟩ w0 ⟨"https", "example.com", "/p/q", "", ""⟩
    [104, 105] (by decide) rfl rfl rfl (Or.inl rfl) rfl

/-- C10: an entry whose encoding marker is absent or anything other than
"base64" is written verbatim: the destination file's bytes are exactly
the UTF-8 bytes of content.text, and processing succeeds. -/
theorem C10_text_passthrough (e : Entry) (cfg : Config) (w : World) (u : URL)
    (hu : urlParse e.request.url = .ok u)
    (ha : cfg.hostAllowlist = [] ∨ cfg.hostAllowlist.contains u.host = true)
    (hd : cfg.dryRun = false)
    (he : e.response.content.encoding ≠ "base64") :
    (processEntry e cfg w).1 = .ok ()
    ∧ (processEntry e cfg w).2.fs.files.lookup (entryFilePath cfg.rootDir u)
      = some (utf8Encode e.response.content.text) := by
  rw [processEntry_allowed_case e cfg w u hu ha]
  rw [processEntryAllowed_text e u cfg w hd he]
  exact ⟨rfl, lookup_cons_self _ _ _⟩

/-- C10 witness: the passthrough at the example plain-text entry. -/
theorem C10_witness :
    (processEntry exC1Entry ⟨"out", false, false, false, []⟩ w0).1 = .ok ()
    ∧ (processEntry exC1Entry ⟨"out", false, false, false, []⟩ w0).2.fs.files.lookup
        (entryFilePath ("out") exURL) = some (utf8Encode ("hi")) :=
  C10_text_passthrough exC1Entry ⟨"out", false, false, false, []⟩ w0 exURL
    rfl (Or.inl rfl) rfl (by decide)

/-- C2 counterexample: in the token stream of the JSON document with
fields "a" mapping to the string value "entries" and then a field named
"entries" (so the first FIELD NAME equal to "entries" is the fourth
token), the scan stops at the earlier string VALUE, not at the field
name: the remainder it returns still starts with the field-name token,
not with the array-open delimiter as the claim requires. -/
theorem C2_counterexample :
    scanForEntries [JsonToken.lbrace, JsonToken.str ("a"), JsonToken.str ("entries"),
        JsonToken.str ("entries"), JsonToken.lbrack, JsonToken.rbrack, JsonToken.rbrace]
      = some [JsonToken.str ("entries"), JsonToken.lbrack, JsonToken.rbrack, JsonToken.rbrace]
    ∧ scanForEntries [JsonToken.lbrace, JsonToken.str ("a"), JsonToken.str ("entries"),
        JsonToken.str ("entries"), JsonToken.lbrack, JsonToken.rbrack, JsonToken.rbrace]
      ≠ some [JsonToken.lbrack, JsonToken.rbrack, JsonToken.rbrace] :=
  ⟨rfl, by decide⟩

/-- C2 (amended): the streaming reader scans generic JSON tokens and
stops at the first STRING token equal to "entries" -- whether that token
is a field name or a string value -- at any nesting level; no entry
decoding occurs before that token, and the scan fails exactly when no
such string token exists anywhere in the stream. -/
theorem C2_amended :
    (∀ (pre post : List JsonToken), JsonToken.str ("entries") ∉ pre →
      scanForEntries (pre ++ JsonToken.str ("entries") :: post) = some post)
    ∧ ∀ toks : List JsonToken, JsonToken.str ("entries") ∉ toks →
      scanForEntries toks = none :=
  ⟨scanForEntries_append, scanForEntries_none⟩

/-- C2 witness: the amended scan behavior on a concrete prefix. -/
theorem C2_witness :
    scanForEntries ([JsonToken.lbrace, JsonToken.str ("log"), JsonToken.lbrace]
        ++ JsonToken.str ("entries") :: [JsonToken.lbrack])
      = some [JsonToken.lbrack]
    ∧ scanForEntries [JsonToken.lbrace, JsonToken.str ("log"), JsonToken.rbrace] = none :=
  ⟨C2_amended.1 [JsonToken.lbrace, JsonToken.str ("log"), JsonToken.lbrace]
      [JsonToken.lbrack] (by decide),
   C2_amended.2 [JsonToken.lbrace, JsonToken.str ("log"), JsonToken.rbrace] (by decide)⟩

/-- C3: on the token stream of the document mapping "entries" to the
number 42 (not an array), the reader consumes the number token without
examining it and returns SUCCESS with count 0 -- the code reads the
token after "entries" but never validates that it is an array-open
delimiter, contradicting the claim (and the code's own comment) that a
non-array token must fail. -/
theorem C3_code_behavior :
    processHar [JsonToken.lbrace, JsonToken.str ("entries"), JsonToken.num 42, JsonToken.rbrace]
      ⟨"out", false, false, false, []⟩ w0 = (0, .ok (), w0) := rfl

/-- Unfolding processHar on a stream whose first "entries" string token
is followed by at least one more token: the loop runs on the tokens
after that next token, whatever it is. -/
theorem processHar_entries (pre : List JsonToken) (t : JsonToken) (rest : List JsonToken)
    (cfg : Config) (w : World) (h : JsonToken.str ("entries") ∉ pre) :
    processHar (pre ++ JsonToken.str ("entries") :: t :: rest) cfg w =
      ((entriesLoop ((pre ++ JsonToken.str ("entries") :: t :: rest).length + 1) rest cfg w 0).1,
       (entriesLoop ((pre ++ JsonToken.str ("entries") :: t :: rest).length + 1) rest cfg w 0).2.1,
       (entriesLoop ((pre ++ JsonToken.str ("entries") :: t :: rest).length + 1) rest cfg w 0).2.2.1) := by
  unfold processHar
  rw [scanForEntries_append pre (t :: rest) h]

/-- C8: the first error stops entry processing for the file at once and
is surfaced with the count of previously successful entries.  First
conjunct: a stream with no "entries" token fails before any entry with
count 0 and an untouched world.  Second: when the second of three
entries fails to materialize, the run returns count 1, that error, and
the world as of the failure -- the third entry is never processed.
Third: when the second array element fails to decode (a bare number),
the run likewise stops with count 1 and the world after the first entry. -/
theorem C8_first_error_stops :
    (∀ (toks : List JsonToken) (cfg : Config) (w : World),
      JsonToken.str ("entries") ∉ toks →
      processHar toks cfg w = (0, .error .malformedInput, w))
    ∧ (∀ (e1 e2 e3 : Entry) (cfg : Config) (w w1 w2 : World) (err : ProcErr),
      processEntry e1 cfg w = (.ok (), w1) →
      processEntry e2 cfg w1 = (.error err, w2) →
      processHar (harHeader ++ entryToTokens e1 ++ entryToTokens e2 ++ entryToTokens e3
          ++ harFooter) cfg w = (1, .error err, w2))
    ∧ (∀ (e1 e3 : Entry) (cfg : Config) (w w1 : World),
      processEntry e1 cfg w = (.ok (), w1) →
      processHar (harHeader ++ entryToTokens e1 ++ JsonToken.num 5 :: entryToTokens e3
          ++ harFooter) cfg w = (1, .error .malformedInput, w1)) := by
  refine ⟨?_, ?_, ?_⟩
  · intro toks cfg w h
    unfold processHar
    rw [scanForEntries_none toks h]
  · intro e1 e2 e3 cfg w w1 w2 err h1 h2
    have hassoc : harHeader ++ entryToTokens e1 ++ entryToTokens e2 ++ entryToTokens e3
          ++ harFooter
        = [JsonToken.lbrace, JsonToken.str ("log"), JsonToken.lbrace]
          ++ JsonToken.str ("entries") :: JsonToken.lbrack ::
            (entryToTokens e1 ++ (entryToTokens e2 ++ (entryToTokens e3 ++ harFooter))) := by
      simp [harHeader]
    rw [hassoc, processHar_entries _ _ _ cfg w (by decide)]
    have hlen : ([JsonToken.lbrace, JsonToken.str ("log"), JsonToken.lbrace]
          ++ JsonToken.str ("entries") :: JsonToken.lbrack ::
            (entryToTokens e1 ++ (entryToTokens e2 ++ (entryToTokens e3 ++ harFooter)))).length + 1
        = 90 := by
      simp [entryToTokens, harFooter]
    rw [hlen]
    have s1 : entriesLoop 90
          (entryToTokens e1 ++ (entryToTokens e2 ++ (entryToTokens e3 ++ harFooter))) cfg w 0
        = entriesLoop 89 (entryToTokens e2 ++ (entryToTokens e3 ++ harFooter)) cfg w1 1 :=
      entriesLoop_step_ok 62 e1 (entryToTokens e2 ++ (entryToTokens e3 ++ harFooter)) cfg w w1 0 h1
    have s2 : entriesLoop 89 (entryToTokens e2 ++ (entryToTokens e3 ++ harFooter)) cfg w1 1
        = (1, .error err, w2, entryToTokens e3 ++ harFooter) :=
      entriesLoop_step_err 61 e2 (entryToTokens e3 ++ harFooter) cfg w1 w2 1 err h2
    rw [s1, s2]
  · intro e1 e3 cfg w w1 h1
    have hassoc : harHeader ++ entryToTokens e1 ++ JsonToken.num 5 :: entryToTokens e3
          ++ harFooter
        = [JsonToken.lbrace, JsonToken.str ("log"), JsonToken.lbrace]
          ++ JsonToken.str ("entries") :: JsonToken.lbrack ::
            (entryToTokens e1 ++ (JsonToken.num 5 :: (entryToTokens e3 ++ harFooter))) := by
      simp [harHeader]
    rw [hassoc, processHar_entries _ _ _ cfg w (by decide)]
    have hlen : ([JsonToken.lbrace, JsonToken.str ("log"), JsonToken.lbrace]
          ++ JsonToken.str ("entries") :: JsonToken.lbrack ::
            (entryToTokens e1 ++ (JsonToken.num 5 :: (entryToTokens e3 ++ harFooter)))).length + 1
        = 64 := by
      simp [entryToTokens, harFooter]
    rw [hlen]
    have s1 : entriesLoop 64
          (entryToTokens e1 ++ (JsonToken.num 5 :: (entryToTokens e3 ++ harFooter))) cfg w 0
        = entriesLoop 63 (JsonToken.num 5 :: (entryToTokens e3 ++ harFooter)) cfg w1 1 :=
      entriesLoop_step_ok 36 e1 (JsonToken.num 5 :: (entryToTokens e3 ++ harFooter)) cfg w w1 0 h1
    have s2 : entriesLoop 63 (JsonToken.num 5 :: (entryToTokens e3 ++ harFooter)) cfg w1 1
        = (1, .error .malformedInput, w1, entryToTokens e3 ++ harFooter) :=
      entriesLoop_step_badnum 62 5 (entryToTokens e3 ++ harFooter) cfg w1 1
    rw [s1, s2]

/-- An entry whose request url contains a control character, so url
parsing fails. -/
def exBadUrlEntry : Entry := ⟨⟨"GET", "http://ex\x00ample.com/x"⟩, zeroResponse⟩

/-- C8 witness: a three-entry document (dry run) where the second
entry's url fails to parse: count 1, the parse error, and the world
after the first entry; the third entry is untouched. -/
theorem C8_witness :
    processHar (harHeader ++ entryToTokens exComEntry ++ entryToTokens exBadUrlEntry
        ++ entryToTokens zeroEntry ++ harFooter) ⟨"out", false, true, false, []⟩ w0
      = (1, .error .invalidURL, w0) :=
  C8_first_error_stops.2.1 exComEntry exBadUrlEntry zeroEntry ⟨"out", false, true, false, []⟩
    w0 w0 w0 .invalidURL rfl rfl
